import Mathlib

/-!
Verification of the Git-Msg diff-preprocessing and prompt-construction
pipeline (src/extension.ts).

Strings are modelled as `List Char`; all inputs of interest are ASCII, so
JavaScript's UTF-16 `.length` / `.slice` coincide with list length / take.
Lines are separated by the newline character.
-/

/-- Embed a Lean string literal as the `List Char` string model. -/
def cs (s : String) : List Char := s.data

/-- The newline character, the only line separator in this model. -/
def nlc : Char := '\n'

/-- JavaScript whitespace as relevant to ASCII inputs: the characters
removed by `String.prototype.trim` (space, tab, newline, carriage
return, vertical tab, form feed). -/
def isWs (c : Char) : Bool :=
  c = ' ' || c = '\t' || c = '\n' || c = '\r' || c = '\x0b' || c = '\x0c'

/-- `startsWith p l` : the string `l` begins with `p`. -/
def startsWith : List Char → List Char → Bool
  | [], _ => true
  | _ :: _, [] => false
  | p :: ps, c :: rest => (p = c) && startsWith ps rest

/-- `endsWith p l` : the string `l` ends with `p`. -/
def endsWith (p l : List Char) : Bool :=
  startsWith p.reverse l.reverse

/-- Number of positions at which `pat` occurs in `l` (counting the
position at the very end, where only the empty pattern can occur). -/
def countOccur (pat : List Char) : List Char → Nat
  | [] => if pat.isEmpty then 1 else 0
  | c :: rest =>
    (if startsWith pat (c :: rest) then 1 else 0) + countOccur pat rest

/-- `text.trimStart()` per JavaScript: drop leading whitespace. -/
def trimLeft (l : List Char) : List Char := l.dropWhile isWs

/-- `text.trimEnd()` per JavaScript: drop trailing whitespace. -/
def trimRight (l : List Char) : List Char :=
  (l.reverse.dropWhile isWs).reverse

/-- `text.trim()` per JavaScript: drop whitespace at both ends. -/
def trim (l : List Char) : List Char := trimLeft (trimRight l)

-- ── Message sanitizer (generateCommitMessage, line 170) ──────────────────

/-- Three backticks, the markdown fence delimiter. -/
def fenceStr : List Char := cs "```"

/-- ASCII letter, the `[a-z]` class under the case-insensitive flag. -/
def isTagLetter (c : Char) : Bool :=
  ('a' ≤ c && c ≤ 'z') || ('A' ≤ c && c ≤ 'Z')

/-- `text.replace(regex1, '')` for the first fence regex: remove one
leading occurrence of three backticks, a (possibly empty) language tag,
and an optional newline, anchored at the start of the string. -/
def stripLead (l : List Char) : List Char :=
  if startsWith fenceStr l then
    let r := (l.drop 3).dropWhile isTagLetter
    match r with
    | '\n' :: r2 => r2
    | _ => r
  else l

/-- `text.replace(regex2, '')` for the second fence regex: remove three
backticks anchored at the very end of the string. -/
def stripTrail (l : List Char) : List Char :=
  if endsWith fenceStr l then l.take (l.length - 3) else l

/-- The message sanitizer of `generateCommitMessage`:
`text.replace(leadFence, '').replace(trailFence, '').trim()`. -/
def sanitizeMessage (l : List Char) : List Char :=
  trim (stripTrail (stripLead l))

-- ── Noise patterns (NOISE_PATTERNS, lines 23-29) ─────────────────────────

/-- Lowercase-hex digit, the `[a-f0-9]` class of the index pattern. -/
def isHexDigit (c : Char) : Bool :=
  ('a' ≤ c && c ≤ 'f') || ('0' ≤ c && c ≤ '9')

/-- Line matcher for the index-line regex anchored to line boundaries:
"index", a space, one or more hex digits, two dots, one or more hex
digits, then anything to the end of the line. -/
def matchIndex (l : List Char) : Bool :=
  startsWith (cs "index ") l &&
    (let r := l.drop 6
     !(r.takeWhile isHexDigit).isEmpty &&
       (match r.dropWhile isHexDigit with
        | '.' :: '.' :: c :: _ => isHexDigit c
        | _ => false))

/-- Line matcher for the rename-similarity regex: exactly
"similarity index ", one or more decimal digits, then a percent sign. -/
def matchSim (l : List Char) : Bool :=
  startsWith (cs "similarity index ") l &&
    (let r := l.drop 17
     !(r.takeWhile Char.isDigit).isEmpty &&
       r.dropWhile Char.isDigit = cs "%")

/-- Line matcher for the old-file-mode regex: exactly "old mode " then
one or more decimal digits. -/
def matchOldMode (l : List Char) : Bool :=
  startsWith (cs "old mode ") l &&
    (let r := l.drop 9
     !r.isEmpty && r.all Char.isDigit)

/-- Line matcher for the new-file-mode regex: exactly "new mode " then
one or more decimal digits. -/
def matchNewMode (l : List Char) : Bool :=
  startsWith (cs "new mode ") l &&
    (let r := l.drop 9
     !r.isEmpty && r.all Char.isDigit)

/-- Line matcher for the binary-file regex: "Binary files ", at least
one character, then " differ" at the end of the line. -/
def matchBinary (l : List Char) : Bool :=
  startsWith (cs "Binary files ") l && endsWith (cs " differ") l &&
    21 ≤ l.length

/-- A line matches some entry of NOISE_PATTERNS. -/
def isNoiseLine (l : List Char) : Bool :=
  matchIndex l || matchSim l || matchOldMode l || matchNewMode l ||
    matchBinary l

-- ── Noise removal (preprocessDiff, lines 131-133) ────────────────────────

/-- Split a string at every newline; always returns at least one line. -/
def splitLines : List Char → List (List Char)
  | [] => [[]]
  | c :: rest =>
    if c = nlc then [] :: splitLines rest
    else
      match splitLines rest with
      | [] => [[c]]
      | h :: t => (c :: h) :: t

/-- Rejoin lines with single newlines (inverse of `splitLines`). -/
def joinLines : List (List Char) → List Char
  | [] => []
  | [l] => l
  | l :: ls => l ++ nlc :: joinLines ls

/-- The noise-removal loop of `preprocessDiff`: each global multiline
`replace(pattern, '')` empties the content of every matching line and
keeps the line's terminating newline.  An emptied line matches no later
pattern, so the sequential replaces coincide with one pass per line. -/
def removeNoise (l : List Char) : List Char :=
  joinLines ((splitLines l).map (fun ln => if isNoiseLine ln then [] else ln))

-- ── Blank-line collapsing (preprocessDiff, line 136) ─────────────────────

/-- Worker for the `\n{3,}` → `\n\n` replace: `n` counts the pending run
of consecutive newlines; runs of three or more emit exactly two. -/
def collapseAux : Nat → List Char → List Char
  | n, [] => List.replicate (min n 2) nlc
  | n, c :: rest =>
    if c = nlc then collapseAux (n + 1) rest
    else List.replicate (min n 2) nlc ++ c :: collapseAux 0 rest

/-- `diff.replace(threeOrMoreNewlines, '\n\n')`: every maximal run of
three or more newlines becomes exactly two. -/
def collapse (l : List Char) : List Char := collapseAux 0 l

-- ── preprocessDiff (lines 127-144) ───────────────────────────────────────

/-- The fixed character budget for the cleaned diff. -/
def MAX_DIFF_CHARS : Nat := 12000

/-- The truncation marker text appended (after a blank line) when the
budget is exceeded. -/
def truncMarker : List Char := cs "[... diff truncated for length ...]"

/-- `preprocessDiff`: remove noise lines, collapse blank-line runs,
truncate to the budget with the marker appended, and trim. -/
def preprocessDiff (rawDiff : List Char) : List Char :=
  let d := collapse (removeNoise rawDiff)
  let d2 :=
    if MAX_DIFF_CHARS < d.length then
      d.take MAX_DIFF_CHARS ++ nlc :: nlc :: truncMarker
    else d
  trim d2

-- ── buildPrompt (lines 179-221) ──────────────────────────────────────────

/-- The template text strictly before the branch-name interpolation,
without the template's leading newline (which `buildPrompt` prepends). -/
def promptHead : List Char :=
  cs "You are an expert software engineer writing Git commit messages.\n\n## Context\nBranch: "

/-- The template text between the branch name and the staged-file list. -/
def promptMid : List Char := cs "\nStaged files:\n"

/-- The template text between the staged-file list and the diff: the
rules block, the three few-shot examples, and the final instruction. -/
def promptTail : List Char :=
  cs ("\n\n## Rules\n- Use Conventional Commits format: <type>(<scope>): <short summary>\n- Allowed types: feat, fix, refactor, chore, docs, style, test, perf, ci\n- Scope is optional but use it when the change is clearly scoped to one area\n- Summary line: max 72 characters, imperative mood (\"add\" not \"added\"), no period\n- Body (optional): explain WHAT changed and WHY, not HOW. Use bullet points.\n- Do NOT include a footer unless there is a breaking change (BREAKING CHANGE: ...)\n- Return ONLY the commit message. No explanations, no markdown fences, no quotes.\n\n## Examples\n\n### Example 1\nDiff: adds a new /health route that returns 200 OK\nOutput:\nfeat(api): add health check endpoint\n\n### Example 2\nDiff: fixes null pointer when user.profile is undefined\nOutput:\nfix(profile): handle undefined user profile on load\n\n### Example 3\nDiff: extracts auth logic into useAuth hook, removes duplicate code in Login and Signup\nOutput:\nrefactor(auth): extract auth logic into useAuth hook\n\n- Move shared auth state to useAuth\n- Remove duplicated logic from Login and Signup components\n\n## Now write the commit message for this diff\n\n")

/-- `buildPrompt`: the template literal (which starts with a newline and
ends with a newline after the diff interpolation), trimmed. -/
def buildPrompt (diff stagedFiles branchName : List Char) : List Char :=
  trim (nlc :: promptHead ++ branchName ++ promptMid ++ stagedFiles ++
    promptTail ++ diff ++ [nlc])

-- ── Orchestrator (activate, lines 33-104) ────────────────────────────────

/-- One invocation's external world: the configuration values as read,
whether the host Git extension resolves, how many repositories are open,
the three version-control query results, and the provider's response.
`none` for a configuration value models `undefined`. -/
structure Env where
  geminiApiKey : Option (List Char)
  modelSetting : Option (List Char)
  gitExtensionFound : Bool
  repoCount : Nat
  diffResult : Except (List Char) (List Char)
  stagedResult : Except (List Char) (List Char)
  branchResult : Except (List Char) (List Char)
  providerResult : Except (List Char) (List Char)

/-- Observable effects of one invocation of the command callback. -/
structure Effects where
  errorMsg : Option (List Char) := none
  warningMsg : Option (List Char) := none
  infoShown : Bool := false
  inputBoxWrite : Option (List Char) := none
  gitCalled : Bool := false
  providerCalled : Bool := false
  promptSent : Option (List Char) := none

/-- JavaScript truthiness of `apiKey`: `!apiKey` is true exactly when
the value is `undefined` or the empty string. -/
def truthyOptStr : Option (List Char) → Bool
  | none => false
  | some s => !s.isEmpty

/-- `config.get('model') || 'gemini-2.0-flash'`: an absent or empty
(falsy) setting falls back to the fixed default identifier. -/
def resolveModel : Option (List Char) → List Char
  | none => cs "gemini-2.0-flash"
  | some s => if s.isEmpty then cs "gemini-2.0-flash" else s

/-- The configuration error shown when the API key is missing. -/
def configErrorMsg : List Char :=
  cs "Git-Msg: No API key found. Add it via Settings → gitMsg.geminiApiKey"

/-- The error shown when the host Git extension is not found. -/
def noGitExtMsg : List Char := cs "Git-Msg: VS Code Git extension not found."

/-- The error shown when no repository is open. -/
def noRepoMsg : List Char := cs "Git-Msg: No Git repository is open."

/-- The nothing-staged warning. -/
def nothingStagedMsg : List Char :=
  cs "Git-Msg: No staged changes found. Run \"git add\" first."

/-- The command callback of `activate`, as a pure function from the
external world to its observable effects.  A rejection of any of the
three version-control queries is surfaced positionally (diff first);
the real `Promise.all` surfaces whichever rejects first in time, which
coincides with this on every run with at most one failure. -/
def runGenerate (env : Env) : Effects :=
  if !truthyOptStr env.geminiApiKey then
    { errorMsg := some configErrorMsg }
  else if !env.gitExtensionFound then
    { errorMsg := some noGitExtMsg }
  else if env.repoCount = 0 then
    { errorMsg := some noRepoMsg }
  else
    match env.diffResult, env.stagedResult, env.branchResult with
    | Except.error e, _, _ =>
      { gitCalled := true, errorMsg := some (cs "Git-Msg Error: " ++ e) }
    | _, Except.error e, _ =>
      { gitCalled := true, errorMsg := some (cs "Git-Msg Error: " ++ e) }
    | _, _, Except.error e =>
      { gitCalled := true, errorMsg := some (cs "Git-Msg Error: " ++ e) }
    | Except.ok rawDiff, Except.ok stagedFiles, Except.ok branchName =>
      if (trim rawDiff).isEmpty then
        { gitCalled := true, warningMsg := some nothingStagedMsg }
      else
        let cleanDiff := preprocessDiff rawDiff
        let prompt := buildPrompt cleanDiff stagedFiles branchName
        match env.providerResult with
        | Except.error e =>
          { gitCalled := true, providerCalled := true,
            promptSent := some prompt,
            errorMsg := some (cs "Git-Msg Error: " ++ e) }
        | Except.ok text =>
          let message := sanitizeMessage (trim text)
          if message.isEmpty then
            { gitCalled := true, providerCalled := true,
              promptSent := some prompt }
          else
            { gitCalled := true, providerCalled := true,
              promptSent := some prompt,
              inputBoxWrite := some message, infoShown := true }

-- ── Basic lemmas about the string primitives ─────────────────────────────

theorem startsWith_nil (l : List Char) : startsWith [] l = true := rfl

theorem startsWith_append_self (p r : List Char) :
    startsWith p (p ++ r) = true := by
  induction p with
  | nil => rfl
  | cons c cl ih => simp [startsWith, ih]

theorem endsWith_nil (l : List Char) : endsWith [] l = true := rfl

theorem endsWith_append_self (p x : List Char) :
    endsWith p (x ++ p) = true := by
  unfold endsWith
  rw [List.reverse_append]
  exact startsWith_append_self p.reverse x.reverse

theorem countOccur_pos (pat x y : List Char) :
    1 ≤ countOccur pat (x ++ pat ++ y) := by
  induction x with
  | nil =>
    cases pat with
    | nil =>
      cases y with
      | nil => simp [countOccur]
      | cons c rest => simp [countOccur, startsWith_nil]
    | cons p ps =>
      have h : startsWith (p :: ps) ((p :: ps) ++ y) = true :=
        startsWith_append_self (p :: ps) y
      simp only [List.nil_append]
      rw [List.cons_append, countOccur, ← List.cons_append, h]
      simp
  | cons c cl ih =>
    rw [List.cons_append, List.cons_append, countOccur]
    exact le_trans ih (Nat.le_add_left _ _)

theorem dropWhile_idem (p : Char → Bool) (l : List Char) :
    (l.dropWhile p).dropWhile p = l.dropWhile p := by
  induction l with
  | nil => rfl
  | cons c rest ih =>
    by_cases h : p c
    · simp [List.dropWhile_cons, h, ih]
    · simp [List.dropWhile_cons, h]

theorem dropWhile_append_eq_nil (p : Char → Bool) (x z : List Char)
    (h : x.dropWhile p = []) :
    (x ++ z).dropWhile p = z.dropWhile p := by
  induction x with
  | nil => rfl
  | cons c rest ih =>
    by_cases hc : p c
    · rw [List.cons_append, List.dropWhile_cons, if_pos hc]
      exact ih (by rwa [List.dropWhile_cons, if_pos hc] at h)
    · rw [List.dropWhile_cons, if_neg hc] at h
      exact absurd h (by simp)

theorem dropWhile_append_ne_nil (p : Char → Bool) (x z : List Char)
    (h : x.dropWhile p ≠ []) :
    (x ++ z).dropWhile p = x.dropWhile p ++ z := by
  induction x with
  | nil => exact absurd rfl h
  | cons c rest ih =>
    by_cases hc : p c
    · rw [List.dropWhile_cons, if_pos hc] at h
      rw [List.cons_append, List.dropWhile_cons, if_pos hc, ih h,
        List.dropWhile_cons, if_pos hc]
    · rw [List.cons_append, List.dropWhile_cons, if_neg hc,
        List.dropWhile_cons, if_neg hc, List.cons_append]

theorem dropWhile_ne_nil_of_mem (p : Char → Bool) (c : Char)
    (l : List Char) (hm : c ∈ l) (hp : p c = false) :
    l.dropWhile p ≠ [] := by
  induction l with
  | nil => cases hm
  | cons d rest ih =>
    by_cases hd : p d
    · rw [List.dropWhile_cons, if_pos hd]
      rcases List.mem_cons.mp hm with h | h
      · subst h; rw [hd] at hp; cases hp
      · exact ih h
    · rw [List.dropWhile_cons, if_neg hd]; simp

theorem length_dropWhile_le' (p : Char → Bool) (l : List Char) :
    (l.dropWhile p).length ≤ l.length := by
  induction l with
  | nil => simp
  | cons c rest ih =>
    by_cases h : p c
    · rw [List.dropWhile_cons, if_pos h]
      exact le_trans ih (Nat.le_succ _)
    · rw [List.dropWhile_cons, if_neg h]

-- ── Lemmas about trimming ────────────────────────────────────────────────

theorem trimLeft_idem (l : List Char) : trimLeft (trimLeft l) = trimLeft l :=
  dropWhile_idem isWs l

theorem trimRight_idem (l : List Char) :
    trimRight (trimRight l) = trimRight l := by
  unfold trimRight
  rw [List.reverse_reverse, dropWhile_idem]

theorem trimRight_cons (c : Char) (l : List Char) :
    trimRight (c :: l) =
      if trimRight l = [] then (if isWs c then [] else [c])
      else c :: trimRight l := by
  unfold trimRight
  rw [List.reverse_cons]
  by_cases h : l.reverse.dropWhile isWs = []
  · rw [dropWhile_append_eq_nil isWs _ _ h, h]
    simp only [List.reverse_nil, if_true]
    by_cases hc : isWs c
    · simp [List.dropWhile_cons, hc]
    · simp [List.dropWhile_cons, hc]
  · rw [dropWhile_append_ne_nil isWs _ _ h]
    have : ¬ (l.reverse.dropWhile isWs).reverse = [] := by
      intro he
      exact h (by simpa using congrArg List.reverse he)
    rw [if_neg this]
    simp

theorem trimRight_trimLeft_comm (l : List Char) :
    trimRight (trimLeft l) = trimLeft (trimRight l) := by
  induction l with
  | nil => rfl
  | cons c rest ih =>
    by_cases hc : isWs c
    · have h1 : trimLeft (c :: rest) = trimLeft rest := by
        unfold trimLeft
        rw [List.dropWhile_cons, if_pos hc]
      rw [h1, ih, trimRight_cons]
      by_cases h2 : trimRight rest = []
      · rw [if_pos h2, if_pos hc, h2]
      · rw [if_neg h2]
        simp [trimLeft, List.dropWhile_cons, hc]
    · have h1 : trimLeft (c :: rest) = c :: rest := by
        unfold trimLeft
        rw [List.dropWhile_cons, if_neg hc]
      rw [h1, trimRight_cons]
      by_cases h2 : trimRight rest = []
      · rw [if_pos h2, if_neg hc]
        simp [trimLeft, List.dropWhile_cons, hc]
      · rw [if_neg h2]
        simp [trimLeft, List.dropWhile_cons, hc]

theorem trim_trim (l : List Char) : trim (trim l) = trim l := by
  unfold trim
  rw [trimRight_trimLeft_comm, trimLeft_idem, trimRight_idem]

theorem trimRight_append (x z : List Char) (c : Char) (hm : c ∈ z)
    (hc : isWs c = false) : trimRight (x ++ z) = x ++ trimRight z := by
  unfold trimRight
  rw [List.reverse_append]
  have hz : z.reverse.dropWhile isWs ≠ [] :=
    dropWhile_ne_nil_of_mem isWs c z.reverse (List.mem_reverse.mpr hm) hc
  rw [dropWhile_append_ne_nil isWs _ _ hz, List.reverse_append,
    List.reverse_reverse]

theorem trimLeft_append (x z : List Char) (c : Char) (hm : c ∈ x)
    (hc : isWs c = false) : trimLeft (x ++ z) = trimLeft x ++ z := by
  unfold trimLeft
  exact dropWhile_append_ne_nil isWs x z
    (dropWhile_ne_nil_of_mem isWs c x hm hc)

theorem trim_length_le (l : List Char) : (trim l).length ≤ l.length := by
  unfold trim trimLeft trimRight
  calc ((l.reverse.dropWhile isWs).reverse.dropWhile isWs).length
      ≤ (l.reverse.dropWhile isWs).reverse.length := length_dropWhile_le' _ _
    _ = (l.reverse.dropWhile isWs).length := List.length_reverse _
    _ ≤ l.reverse.length := length_dropWhile_le' _ _
    _ = l.length := List.length_reverse _

-- ── Lemmas about lines ───────────────────────────────────────────────────

/-- The string contains no newline (is a single line). -/
def noLf (l : List Char) : Prop := ∀ c ∈ l, c ≠ nlc

instance instDecidableNoLf (l : List Char) : Decidable (noLf l) :=
  List.decidableBAll (fun c => c ≠ nlc) l

theorem splitLines_ne_nil (l : List Char) : splitLines l ≠ [] := by
  cases l with
  | nil => simp [splitLines]
  | cons c rest =>
    unfold splitLines
    by_cases h : c = nlc
    · simp [h]
    · rw [if_neg h]
      cases splitLines rest <;> simp

theorem splitLines_of_noLf (l : List Char) (h : noLf l) :
    splitLines l = [l] := by
  induction l with
  | nil => rfl
  | cons c rest ih =>
    have hc : c ≠ nlc := h c (by simp)
    have hr : splitLines rest = [rest] :=
      ih (fun d hd => h d (List.mem_cons_of_mem c hd))
    unfold splitLines
    rw [if_neg hc, hr]

theorem splitLines_append_nl (a z : List Char) (h : noLf a) :
    splitLines (a ++ nlc :: z) = a :: splitLines z := by
  induction a with
  | nil => simp [splitLines]
  | cons c rest ih =>
    have hc : c ≠ nlc := h c (by simp)
    have hr := ih (fun d hd => h d (List.mem_cons_of_mem c hd))
    rw [List.cons_append]
    show (if c = nlc then [] :: splitLines (rest ++ nlc :: z)
      else match splitLines (rest ++ nlc :: z) with
        | [] => [[c]]
        | h :: t => (c :: h) :: t) = (c :: rest) :: splitLines z
    rw [if_neg hc, hr]

theorem noLf_of_mem_splitLines (l : List Char) (ln : List Char)
    (h : ln ∈ splitLines l) : noLf ln := by
  induction l generalizing ln with
  | nil =>
    simp [splitLines] at h
    subst h
    intro c hc
    cases hc
  | cons c rest ih =>
    by_cases hc : c = nlc
    · unfold splitLines at h
      rw [if_pos hc] at h
      rcases List.mem_cons.mp h with h1 | h1
      · subst h1; intro d hd; cases hd
      · exact ih ln h1
    · unfold splitLines at h
      rw [if_neg hc] at h
      rcases he : splitLines rest with _ | ⟨hh, t⟩
      · exact absurd he (splitLines_ne_nil rest)
      · rw [he] at h
        rcases List.mem_cons.mp h with h1 | h1
        · subst h1
          intro d hd
          rcases List.mem_cons.mp hd with h2 | h2
          · subst h2; exact hc
          · exact ih hh (by rw [he]; exact List.mem_cons_self _ _) d h2
        · exact ih ln (by rw [he]; exact List.mem_cons_of_mem hh h1)

theorem splitLines_joinLines (L : List (List Char)) (hne : L ≠ [])
    (h : ∀ l ∈ L, noLf l) : splitLines (joinLines L) = L := by
  induction L with
  | nil => exact absurd rfl hne
  | cons l ls ih =>
    cases ls with
    | nil =>
      show splitLines (joinLines [l]) = [l]
      rw [show joinLines [l] = l from rfl]
      exact splitLines_of_noLf l (h l (by simp))
    | cons l2 ls2 =>
      rw [show joinLines (l :: l2 :: ls2) = l ++ nlc :: joinLines (l2 :: ls2)
        from rfl]
      rw [splitLines_append_nl _ _ (h l (by simp))]
      rw [ih (by simp) (fun d hd => h d (List.mem_cons_of_mem l hd))]

theorem splitLines_removeNoise (s : List Char) :
    splitLines (removeNoise s) =
      (splitLines s).map (fun ln => if isNoiseLine ln then [] else ln) := by
  unfold removeNoise
  apply splitLines_joinLines
  · intro he
    exact splitLines_ne_nil s (List.map_eq_nil_iff.mp he)
  · intro l hl
    rcases List.mem_map.mp hl with ⟨ln, hln, he⟩
    by_cases hn : isNoiseLine ln
    · rw [if_pos hn] at he
      subst he
      intro c hc
      cases hc
    · rw [if_neg hn] at he
      rw [← he]
      exact noLf_of_mem_splitLines s ln hln

theorem removeNoise_of_noLf (l : List Char) (h : noLf l)
    (hn : isNoiseLine l = false) : removeNoise l = l := by
  unfold removeNoise
  rw [splitLines_of_noLf l h]
  simp [joinLines, hn]

-- ── Lemmas about blank-line collapsing ───────────────────────────────────

theorem collapseAux_cons_nl (n : Nat) (l : List Char) :
    collapseAux n (nlc :: l) = collapseAux (n + 1) l := by
  simp [collapseAux]

theorem collapseAux_cons_other (n : Nat) (c : Char) (l : List Char)
    (hc : c ≠ nlc) :
    collapseAux n (c :: l) =
      List.replicate (min n 2) nlc ++ c :: collapseAux 0 l := by
  simp [collapseAux, hc]

theorem collapseAux_sat (l : List Char) (n : Nat) (h : 2 ≤ n) :
    collapseAux n l = collapseAux 2 l := by
  induction l generalizing n with
  | nil =>
    show List.replicate (min n 2) nlc = List.replicate (min 2 2) nlc
    rw [Nat.min_eq_right h, Nat.min_self]
  | cons c rest ih =>
    by_cases hc : c = nlc
    · subst hc
      rw [collapseAux_cons_nl, collapseAux_cons_nl,
        ih (n + 1) (by omega), ← ih (2 + 1) (by omega)]
    · rw [collapseAux_cons_other n c rest hc,
        collapseAux_cons_other 2 c rest hc, Nat.min_eq_right h,
        Nat.min_self]

theorem collapseAux_replicate (m : Nat) (k : Nat) (z : List Char) :
    collapseAux k (List.replicate m nlc ++ z) = collapseAux (k + m) z := by
  induction m generalizing k with
  | zero => simp
  | succ m ih =>
    rw [List.replicate_succ, List.cons_append, collapseAux_cons_nl, ih]
    congr 1
    omega

theorem collapse_collapseAux (l : List Char) (n : Nat) :
    collapse (collapseAux n l) = collapseAux (min n 2) l := by
  induction l generalizing n with
  | nil =>
    show collapseAux 0 (List.replicate (min n 2) nlc) =
      List.replicate (min (min n 2) 2) nlc
    rw [Nat.min_eq_left (Nat.min_le_right n 2)]
    have hr : collapseAux 0 (List.replicate (min n 2) nlc) =
        collapseAux (0 + min n 2) [] := by
      rw [← collapseAux_replicate (min n 2) 0 [], List.append_nil]
    rw [hr, Nat.zero_add]
    show List.replicate (min (min n 2) 2) nlc = _
    rw [Nat.min_eq_left (Nat.min_le_right n 2)]
  | cons c rest ih =>
    by_cases hc : c = nlc
    · subst hc
      show collapse (collapseAux n (nlc :: rest)) =
        collapseAux (min n 2) (nlc :: rest)
      rw [collapseAux_cons_nl, ih (n + 1), collapseAux_cons_nl]
      rcases Nat.lt_or_ge n 2 with h | h
      · congr 1
        omega
      · rw [Nat.min_eq_right (by omega : 2 ≤ n + 1), Nat.min_eq_right h]
        exact (collapseAux_sat rest (2 + 1) (by omega)).symm
    · rw [collapseAux_cons_other n c rest hc]
      show collapseAux 0
          (List.replicate (min n 2) nlc ++ c :: collapseAux 0 rest) = _
      rw [collapseAux_replicate (min n 2) 0 (c :: collapseAux 0 rest),
        Nat.zero_add, collapseAux_cons_other (min n 2) c _ hc,
        collapseAux_cons_other (min n 2) c rest hc]
      have h0 : collapseAux 0 (collapseAux 0 rest) = collapseAux 0 rest := by
        have h1 := ih 0
        rwa [show min 0 2 = 0 from rfl] at h1
      rw [h0]

theorem collapse_of_noLf (l : List Char) (h : noLf l) : collapse l = l := by
  induction l with
  | nil => rfl
  | cons c rest ih =>
    have hc : c ≠ nlc := h c (by simp)
    unfold collapse at ih ⊢
    rw [collapseAux_cons_other 0 c rest hc,
      ih (fun d hd => h d (List.mem_cons_of_mem c hd))]
    rfl

theorem collapseAux_noLf_chunk (a r : List Char) (h : noLf a) :
    collapseAux 0 (a ++ r) = a ++ collapseAux 0 r := by
  induction a with
  | nil => rfl
  | cons c rest ih =>
    have hc : c ≠ nlc := h c (by simp)
    rw [List.cons_append, collapseAux_cons_other 0 c _ hc,
      ih (fun d hd => h d (List.mem_cons_of_mem c hd))]
    rfl

theorem collapseAux_two_noLf (b : List Char) (h : noLf b) :
    collapseAux 2 b = nlc :: nlc :: b := by
  cases b with
  | nil => rfl
  | cons c rest =>
    have hc : c ≠ nlc := h c (by simp)
    rw [collapseAux_cons_other 2 c rest hc]
    have hr : collapseAux 0 rest = rest :=
      collapse_of_noLf rest (fun d hd => h d (List.mem_cons_of_mem c hd))
    rw [hr]
    rfl

theorem startsWith_self (l : List Char) : startsWith l l = true := by
  have h := startsWith_append_self l []
  rwa [List.append_nil] at h

theorem endsWith_self (l : List Char) : endsWith l l = true :=
  startsWith_self l.reverse

-- ── Claim theorems ───────────────────────────────────────────────────────

/-- Claim C5: the blank-line-collapsing step (replacing every run of
three or more consecutive newlines with exactly two newlines) is
idempotent: collapsing twice equals collapsing once. -/
theorem C5_collapse_idem (s : List Char) :
    collapse (collapse s) = collapse s := by
  have h := collapse_collapseAux s 0
  rwa [show min 0 2 = 0 from rfl] at h

/-- Claim C2 as stated is false: the Message Sanitizer is not
idempotent.  On the input "x``` " the first application trims the
trailing space, exposing a trailing fence that only the second
application removes. -/
theorem C2_counterexample :
    sanitizeMessage (sanitizeMessage (cs "x``` ")) ≠
      sanitizeMessage (cs "x``` ") := by
  decide

/-- Claim C2 amended: the Message Sanitizer is idempotent on every
input whose sanitized result does not itself start with three backticks
and does not end with three backticks (a second application can strip
further fences exposed by the first, as the counterexample shows). -/
theorem C2_sanitize_idem (s : List Char)
    (h1 : startsWith fenceStr (sanitizeMessage s) = false)
    (h2 : endsWith fenceStr (sanitizeMessage s) = false) :
    sanitizeMessage (sanitizeMessage s) = sanitizeMessage s := by
  have hl : stripLead (sanitizeMessage s) = sanitizeMessage s := by
    unfold stripLead
    rw [h1]
    simp
  have ht : stripTrail (sanitizeMessage s) = sanitizeMessage s := by
    unfold stripTrail
    rw [h2]
    simp
  show trim (stripTrail (stripLead (sanitizeMessage s))) = sanitizeMessage s
  rw [hl, ht]
  show trim (trim (stripTrail (stripLead s))) =
    trim (stripTrail (stripLead s))
  exact trim_trim _

/-- Witness for C2: a concrete input satisfying the amended theorem's
hypotheses. -/
theorem C2_sanitize_idem_witness :
    startsWith fenceStr (sanitizeMessage (cs "feat(x): add y")) = false ∧
    endsWith fenceStr (sanitizeMessage (cs "feat(x): add y")) = false ∧
    sanitizeMessage (sanitizeMessage (cs "feat(x): add y")) =
      sanitizeMessage (cs "feat(x): add y") :=
  ⟨by decide, by decide,
    C2_sanitize_idem (cs "feat(x): add y") (by decide) (by decide)⟩

/-- Claim C6: the Message Sanitizer maps the fenced example to exactly
"feat(x): add y", and on any input that neither starts nor ends with a
triple-backtick fence it returns the whitespace-trimmed input. -/
theorem C6_sanitizer_basic (s : List Char)
    (h1 : startsWith fenceStr s = false)
    (h2 : endsWith fenceStr s = false) :
    sanitizeMessage (cs "```\nfeat(x): add y\n```") = cs "feat(x): add y" ∧
    sanitizeMessage s = trim s := by
  constructor
  · decide
  · unfold sanitizeMessage
    rw [show stripLead s = s by unfold stripLead; rw [h1]; simp,
      show stripTrail s = s by unfold stripTrail; rw [h2]; simp]

/-- Witness for C6 at a fence-free input. -/
theorem C6_sanitizer_basic_witness :
    startsWith fenceStr (cs " fix: y ") = false ∧
    endsWith fenceStr (cs " fix: y ") = false ∧
    (sanitizeMessage (cs "```\nfeat(x): add y\n```") = cs "feat(x): add y" ∧
      sanitizeMessage (cs " fix: y ") = trim (cs " fix: y ")) :=
  ⟨by decide, by decide, C6_sanitizer_basic (cs " fix: y ") (by decide) (by decide)⟩

/-- Claim C8: removing a matched noise line deletes only the line's
content, not its newline: a noise line between two non-blank lines
leaves a blank line (the neighbours are not joined, and the resulting
two-newline gap is not collapsed). -/
theorem C8_blank_line_left (a n b : List Char)
    (ha1 : noLf a) (hn1 : noLf n) (hb1 : noLf b)
    (ha2 : isNoiseLine a = false) (hn2 : isNoiseLine n = true)
    (hb2 : isNoiseLine b = false) (ha3 : a ≠ []) (hb3 : b ≠ []) :
    removeNoise (a ++ nlc :: n ++ nlc :: b) = a ++ nlc :: nlc :: b ∧
    collapse (removeNoise (a ++ nlc :: n ++ nlc :: b)) =
      a ++ nlc :: nlc :: b := by
  have hrm : removeNoise (a ++ nlc :: n ++ nlc :: b) =
      a ++ nlc :: nlc :: b := by
    unfold removeNoise
    have hsp : splitLines (a ++ nlc :: n ++ nlc :: b) = [a, n, b] := by
      rw [show a ++ nlc :: n ++ nlc :: b = a ++ nlc :: (n ++ nlc :: b) by
        simp]
      rw [splitLines_append_nl a _ ha1, splitLines_append_nl n _ hn1,
        splitLines_of_noLf b hb1]
    rw [hsp]
    simp only [List.map_cons, List.map_nil, ha2, hn2, hb2]
    simp [joinLines]
  refine ⟨hrm, ?_⟩
  rw [hrm]
  rw [show a ++ nlc :: nlc :: b = a ++ (nlc :: nlc :: b) from rfl]
  unfold collapse
  rw [collapseAux_noLf_chunk a _ ha1, collapseAux_cons_nl,
    collapseAux_cons_nl, collapseAux_two_noLf b hb1]

/-- Witness for C8 on a concrete hunk with an old-mode noise line. -/
theorem C8_blank_line_left_witness :
    removeNoise (cs "+foo" ++ nlc :: cs "old mode 100644" ++ nlc :: cs "+bar") =
      cs "+foo" ++ nlc :: nlc :: cs "+bar" ∧
    collapse (removeNoise
        (cs "+foo" ++ nlc :: cs "old mode 100644" ++ nlc :: cs "+bar")) =
      cs "+foo" ++ nlc :: nlc :: cs "+bar" :=
  C8_blank_line_left (cs "+foo") (cs "old mode 100644") (cs "+bar")
    (by decide) (by decide) (by decide) (by decide) (by decide) (by decide)
    (by decide) (by decide)

/-- Claim C4 as stated is false: for an input that does contain the
line "index abc123..def456 100644", the Noise Filter's final output can
still contain that line verbatim.  Here the second input line carries
three leading spaces, so no anchored pattern matches it, and the final
trim step strips exactly those spaces, reproducing the forbidden line. -/
theorem C4_counterexample :
    (cs "index abc123..def456 100644") ∈
      splitLines
        (cs "index abc123..def456 100644\n   index abc123..def456 100644") ∧
    (cs "index abc123..def456 100644") ∈
      splitLines (preprocessDiff
        (cs "index abc123..def456 100644\n   index abc123..def456 100644")) := by
  decide

/-- Claim C4 amended: after the noise-removal step every line of the
text fails every noise pattern — in particular none of the four quoted
lines, each of which matches a pattern, survives as a line of that
stage's output.  (The later trim and truncation steps can reintroduce
such a line only by transforming a non-matching input line, as the
counterexample shows.) -/
theorem C4_noise_lines_removed (s : List Char) :
    ((splitLines (removeNoise s)).all (fun ln => !isNoiseLine ln)) = true ∧
    isNoiseLine (cs "index abc123..def456 100644") = true ∧
    isNoiseLine (cs "Binary files a/x.png and b/x.png differ") = true ∧
    isNoiseLine (cs "old mode 100644") = true ∧
    isNoiseLine (cs "new mode 100755") = true := by
  refine ⟨?_, by decide, by decide, by decide, by decide⟩
  rw [splitLines_removeNoise, List.all_eq_true]
  intro ln hln
  rcases List.mem_map.mp hln with ⟨l0, hl0, he⟩
  by_cases hn : isNoiseLine l0
  · rw [if_pos hn] at he
    rw [← he]
    decide
  · rw [if_neg hn] at he
    rw [← he]
    simp [hn]

/-- Claim C1: whenever the diff, after noise-line removal and
blank-line collapsing, is longer than 12,000 characters, the output of
`preprocessDiff` ends with the exact marker text
"[... diff truncated for length ...]" and its length is at most 12,000
plus the length of the appended marker text (the marker preceded by the
blank line, 38 characters in all). -/
theorem C1_truncation (raw : List Char)
    (h : MAX_DIFF_CHARS < (collapse (removeNoise raw)).length) :
    endsWith truncMarker (preprocessDiff raw) = true ∧
    (preprocessDiff raw).length ≤
      MAX_DIFF_CHARS + (nlc :: nlc :: truncMarker).length := by
  have hpre : preprocessDiff raw =
      trim (((collapse (removeNoise raw)).take MAX_DIFF_CHARS ++
        [nlc, nlc]) ++ truncMarker) := by
    simp only [preprocessDiff]
    rw [if_pos h]
    simp
  rw [hpre]
  have hTR : trimRight (((collapse (removeNoise raw)).take MAX_DIFF_CHARS ++
      [nlc, nlc]) ++ truncMarker) =
      ((collapse (removeNoise raw)).take MAX_DIFF_CHARS ++ [nlc, nlc]) ++
        truncMarker := by
    rw [trimRight_append _ _ '[' (by decide) (by decide),
      show trimRight truncMarker = truncMarker by decide]
  constructor
  · show endsWith truncMarker (trim _) = true
    unfold trim
    rw [hTR]
    unfold trimLeft
    by_cases hA : ((collapse (removeNoise raw)).take MAX_DIFF_CHARS ++
        [nlc, nlc]).dropWhile isWs = []
    · rw [dropWhile_append_eq_nil _ _ _ hA,
        show truncMarker.dropWhile isWs = truncMarker by decide]
      exact endsWith_self truncMarker
    · rw [dropWhile_append_ne_nil _ _ _ hA]
      exact endsWith_append_self truncMarker _
  · have hlen : ((collapse (removeNoise raw)).take MAX_DIFF_CHARS).length =
        MAX_DIFF_CHARS := by
      rw [List.length_take]
      omega
    have h1 := trim_length_le (((collapse (removeNoise raw)).take
      MAX_DIFF_CHARS ++ [nlc, nlc]) ++ truncMarker)
    rw [List.length_append, List.length_append, hlen] at h1
    refine le_trans h1 ?_
    simp only [List.length_cons, List.length_nil]
    omega

/-- Witness for C1: a 12,001-character diff with no newline and no
noise line passes the filter stages unchanged, so it exceeds the
budget. -/
theorem C1_truncation_witness :
    endsWith truncMarker (preprocessDiff (List.replicate 12001 'a')) = true ∧
    (preprocessDiff (List.replicate 12001 'a')).length ≤
      MAX_DIFF_CHARS + (nlc :: nlc :: truncMarker).length := by
  apply C1_truncation
  have hno : noLf (List.replicate 12001 'a') := by
    intro c hc
    rw [List.eq_of_mem_replicate hc]
    decide
  have hnoise : isNoiseLine (List.replicate 12001 'a') = false := by
    decide
  rw [removeNoise_of_noLf _ hno hnoise, collapse_of_noLf _ hno,
    List.length_replicate]
  decide

theorem trimRight_pair (c : Char) (hc : isWs c = false) :
    trimRight [c, nlc] = [c] := by
  unfold trimRight
  rw [show ([c, nlc] : List Char).reverse = [nlc, c] by simp]
  rw [List.dropWhile_cons, if_pos (by decide : isWs nlc = true),
    List.dropWhile_cons, if_neg (by simp [hc])]
  simp

theorem trimLeft_nlc_promptHead (m : List Char) :
    trimLeft (nlc :: (promptHead ++ m)) = promptHead ++ m := by
  unfold trimLeft
  rw [List.dropWhile_cons, if_pos (by decide : isWs nlc = true),
    dropWhile_append_ne_nil isWs _ _ (by decide),
    show promptHead.dropWhile isWs = promptHead by decide]

set_option maxRecDepth 8000 in
/-- Claim C3 as stated is false: the branch name need not occur exactly
once in the prompt.  With branch name "a" the single character "a"
already occurs throughout the fixed template text. -/
theorem C3_counterexample :
    countOccur (cs "a") (buildPrompt (cs "+x") (cs "M f.py") (cs "a")) ≠
      1 := by
  decide

/-- Claim C3 amended: for every triple, the prompt contains the branch
name and the staged-file text verbatim at least once each (exactly once
cannot hold for inputs that also occur in the fixed template), and
whenever the cleaned diff is empty or ends with a non-whitespace
character — as every `preprocessDiff` output does — the prompt ends
with the cleaned diff text. -/
theorem C3_prompt_parts (d f b : List Char)
    (hd : d = [] ∨ ∃ d0 c, isWs c = false ∧ d = d0 ++ [c]) :
    1 ≤ countOccur b (buildPrompt d f b) ∧
    1 ≤ countOccur f (buildPrompt d f b) ∧
    endsWith d (buildPrompt d f b) = true := by
  rcases hd with hnil | ⟨d0, c, hc, hdc⟩
  · subst hnil
    have h0 : buildPrompt [] f b =
        trim ((nlc :: (promptHead ++ (b ++ (promptMid ++ f)))) ++
          (promptTail ++ [nlc])) := by
      unfold buildPrompt
      congr 1
      simp
    have hP : buildPrompt [] f b =
        promptHead ++ (b ++ (promptMid ++
          (f ++ trimRight (promptTail ++ [nlc])))) := by
      rw [h0]
      unfold trim
      rw [trimRight_append _ _ '#'
        (List.mem_append_left _ (by decide)) (by decide)]
      rw [show (nlc :: (promptHead ++ (b ++ (promptMid ++ f)))) ++
          trimRight (promptTail ++ [nlc]) =
          nlc :: (promptHead ++ ((b ++ (promptMid ++ f)) ++
            trimRight (promptTail ++ [nlc]))) by simp]
      rw [trimLeft_nlc_promptHead]
      simp
    refine ⟨?_, ?_, ?_⟩
    · rw [hP]
      exact countOccur_pos b promptHead
        (promptMid ++ (f ++ trimRight (promptTail ++ [nlc])))
    · rw [hP]
      simpa [List.append_assoc] using
        countOccur_pos f ((promptHead ++ b) ++ promptMid)
          (trimRight (promptTail ++ [nlc]))
    · exact endsWith_nil _
  · subst hdc
    have h0 : buildPrompt (d0 ++ [c]) f b =
        trim ((nlc :: (promptHead ++ (b ++ (promptMid ++
          (f ++ (promptTail ++ d0)))))) ++ [c, nlc]) := by
      unfold buildPrompt
      congr 1
      simp
    have hP : buildPrompt (d0 ++ [c]) f b =
        promptHead ++ (b ++ (promptMid ++
          (f ++ (promptTail ++ (d0 ++ [c]))))) := by
      rw [h0]
      unfold trim
      rw [trimRight_append _ _ c (by simp) hc, trimRight_pair c hc]
      rw [show (nlc :: (promptHead ++ (b ++ (promptMid ++
          (f ++ (promptTail ++ d0)))))) ++ [c] =
          nlc :: (promptHead ++ ((b ++ (promptMid ++
            (f ++ (promptTail ++ d0)))) ++ [c])) by simp]
      rw [trimLeft_nlc_promptHead]
      simp
    refine ⟨?_, ?_, ?_⟩
    · rw [hP]
      exact countOccur_pos b promptHead
        (promptMid ++ (f ++ (promptTail ++ (d0 ++ [c]))))
    · rw [hP]
      simpa [List.append_assoc] using
        countOccur_pos f ((promptHead ++ b) ++ promptMid)
          (promptTail ++ (d0 ++ [c]))
    · rw [hP]
      simpa [List.append_assoc] using
        endsWith_append_self (d0 ++ [c])
          (promptHead ++ (b ++ (promptMid ++ (f ++ promptTail))))

/-- Witness for C3 on a concrete diff, staged-file list, and branch. -/
theorem C3_prompt_parts_witness :
    (1 ≤ countOccur (cs "main")
        (buildPrompt (cs "+x") (cs "M\tf.py") (cs "main"))) ∧
    (1 ≤ countOccur (cs "M\tf.py")
        (buildPrompt (cs "+x") (cs "M\tf.py") (cs "main"))) ∧
    endsWith (cs "+x")
        (buildPrompt (cs "+x") (cs "M\tf.py") (cs "main")) = true :=
  C3_prompt_parts (cs "+x") (cs "M\tf.py") (cs "main")
    (Or.inr ⟨cs "+", 'x', by decide, by decide⟩)

/-- Claim C7: in any run in which the three version-control queries
succeed and the fetched raw diff is empty or whitespace-only, the
orchestrator stops with the "nothing staged" warning and never invokes
the text-generation provider. -/
theorem C7_nothing_staged (env : Env) (d s b : List Char)
    (h1 : truthyOptStr env.geminiApiKey = true)
    (h2 : env.gitExtensionFound = true)
    (h3 : env.repoCount ≠ 0)
    (h4 : env.diffResult = Except.ok d)
    (h5 : env.stagedResult = Except.ok s)
    (h6 : env.branchResult = Except.ok b)
    (h7 : (trim d).isEmpty = true) :
    (runGenerate env).warningMsg = some nothingStagedMsg ∧
    (runGenerate env).providerCalled = false := by
  unfold runGenerate
  rw [h1, h2, h4, h5, h6]
  simp [h3, h7]

/-- Witness for C7 with a whitespace-only staged diff. -/
theorem C7_nothing_staged_witness :
    (runGenerate ⟨some (cs "key"), none, true, 1, Except.ok (cs "  \n"),
      Except.ok (cs ""), Except.ok (cs "main"),
      Except.ok (cs "x")⟩).warningMsg = some nothingStagedMsg ∧
    (runGenerate ⟨some (cs "key"), none, true, 1, Except.ok (cs "  \n"),
      Except.ok (cs ""), Except.ok (cs "main"),
      Except.ok (cs "x")⟩).providerCalled = false :=
  C7_nothing_staged _ (cs "  \n") (cs "") (cs "main")
    (by decide) rfl (by decide) rfl rfl rfl (by decide)

/-- Claim C9: if every prior step succeeds but the sanitized final
message is empty (for example the provider returned only fences or
whitespace), the orchestrator leaves the commit-message input box
unchanged and shows no success notification. -/
theorem C9_empty_message_no_write (env : Env) (d s b t : List Char)
    (h1 : truthyOptStr env.geminiApiKey = true)
    (h2 : env.gitExtensionFound = true)
    (h3 : env.repoCount ≠ 0)
    (h4 : env.diffResult = Except.ok d)
    (h5 : env.stagedResult = Except.ok s)
    (h6 : env.branchResult = Except.ok b)
    (h7 : (trim d).isEmpty = false)
    (h8 : env.providerResult = Except.ok t)
    (h9 : (sanitizeMessage (trim t)).isEmpty = true) :
    (runGenerate env).inputBoxWrite = none ∧
    (runGenerate env).infoShown = false := by
  unfold runGenerate
  rw [h1, h2, h4, h5, h6, h8]
  simp [h3, h7, h9]

/-- Witness for C9: the provider returns a bare pair of fences. -/
theorem C9_empty_message_no_write_witness :
    (runGenerate ⟨some (cs "key"), none, true, 1, Except.ok (cs "+x"),
      Except.ok (cs "M f.py"), Except.ok (cs "main"),
      Except.ok (cs "```\n```")⟩).inputBoxWrite = none ∧
    (runGenerate ⟨some (cs "key"), none, true, 1, Except.ok (cs "+x"),
      Except.ok (cs "M f.py"), Except.ok (cs "main"),
      Except.ok (cs "```\n```")⟩).infoShown = false :=
  C9_empty_message_no_write _ (cs "+x") (cs "M f.py") (cs "main")
    (cs "```\n```") (by decide) rfl (by decide) rfl rfl rfl (by decide)
    rfl (by decide)

/-- Claim C10: an API key configured as the empty string behaves
exactly like an absent key — the run ends with the configuration error,
no version-control process call and no provider call happen — and an
empty model-name setting resolves to the fixed default identifier. -/
theorem C10_empty_key_like_absent (env : Env)
    (h : env.geminiApiKey = some []) :
    runGenerate env = runGenerate { env with geminiApiKey := none } ∧
    (runGenerate env).errorMsg = some configErrorMsg ∧
    (runGenerate env).gitCalled = false ∧
    (runGenerate env).providerCalled = false ∧
    resolveModel (some []) = resolveModel none ∧
    resolveModel (some []) = cs "gemini-2.0-flash" := by
  have h1 : truthyOptStr env.geminiApiKey = false := by
    rw [h]
    rfl
  have hL : runGenerate env = { errorMsg := some configErrorMsg } := by
    unfold runGenerate
    rw [h1]
    simp
  have hR : runGenerate { env with geminiApiKey := none } =
      { errorMsg := some configErrorMsg } := by
    unfold runGenerate
    simp [truthyOptStr]
  refine ⟨?_, ?_, ?_, ?_, rfl, rfl⟩
  · rw [hL, hR]
  · rw [hL]
  · rw [hL]
  · rw [hL]

/-- Witness for C10 at a concrete environment with an empty key. -/
theorem C10_empty_key_like_absent_witness :
    runGenerate ⟨some [], some [], true, 1, Except.ok (cs "+x"),
        Except.ok (cs "M f.py"), Except.ok (cs "main"),
        Except.ok (cs "ok")⟩ =
      runGenerate { (⟨some [], some [], true, 1, Except.ok (cs "+x"),
        Except.ok (cs "M f.py"), Except.ok (cs "main"),
        Except.ok (cs "ok")⟩ : Env) with geminiApiKey := none } ∧
    (runGenerate ⟨some [], some [], true, 1, Except.ok (cs "+x"),
        Except.ok (cs "M f.py"), Except.ok (cs "main"),
        Except.ok (cs "ok")⟩).errorMsg = some configErrorMsg ∧
    (runGenerate ⟨some [], some [], true, 1, Except.ok (cs "+x"),
        Except.ok (cs "M f.py"), Except.ok (cs "main"),
        Except.ok (cs "ok")⟩).gitCalled = false ∧
    (runGenerate ⟨some [], some [], true, 1, Except.ok (cs "+x"),
        Except.ok (cs "M f.py"), Except.ok (cs "main"),
        Except.ok (cs "ok")⟩).providerCalled = false ∧
    resolveModel (some []) = resolveModel none ∧
    resolveModel (some []) = cs "gemini-2.0-flash" :=
  C10_empty_key_like_absent _ rfl
